import Mathlib

/-!
Verification of the imprint deduplication engine against its specification.

The Rust sources under `src/` are shallowly embedded: files are byte lists,
the filesystem is a map from names to file records, the state store is a
record of three maps, and platform oracles (reflink support, fiemap extent
queries, xattr support, restore success) are explicit parameters.
Definitions come first; the theorems that settle the claims follow.
-/

namespace Imprint

/-! ### Identity (src/hasher.rs) -/

/-- `SPARSE_CHUNK` from src/hasher.rs: 4 KiB window. -/
def SPARSE_CHUNK : Nat := 4 * 1024

/-- `SPARSE_TOTAL` from src/hasher.rs: 12 KiB threshold. -/
def SPARSE_TOTAL : Nat := 12 * 1024

/-- `FULL_BUF` from src/hasher.rs: 128 KiB read buffer. -/
def FULL_BUF : Nat := 128 * 1024

/-- A file's bytes. -/
abbrev ByteFile := List Nat

/-- The streaming 256-bit hash primitive is out of scope (an external
collaborator); it is modelled as the exact byte stream fed to the hasher
state, which is injective, hence a faithful stand-in for a collision-free
digest. -/
def hashStream (fed : List Nat) : List Nat := fed

/-- `full_hash` (src/hasher.rs lines 36-50): streams the whole file into the
hasher in `FULL_BUF` chunks; the concatenation of the chunks is the file
itself. I/O errors are abstracted away, so the model is total. -/
def full_hash (data : ByteFile) : Option (List Nat) :=
  some (hashStream data)

/-- `read_at` (src/hasher.rs lines 52-57): seek to `offset` and `read_exact`
a buffer of `len` bytes; `read_exact` fails when fewer than `len` bytes
remain past `offset`. -/
def read_at (data : ByteFile) (offset len : Nat) : Option (List Nat) :=
  if offset + len ≤ data.length then some ((data.drop offset).take len) else none

/-- One fiemap extent, as `(fe_logical, fe_length)`. -/
abbrev Extent := Nat × Nat

/-- The scan of the fiemap extent array (src/hasher.rs lines 96-107): the
first extent containing `target` yields `target`; otherwise the first
extent starting past `target` yields its start, with no cap applied. -/
def findAdjust (target : Nat) : List Extent → Option Nat
  | [] => none
  | (s, l) :: rest =>
    if target ≥ s ∧ target < s + l then some target
    else if s > target then some s
    else findAdjust target rest

/-- `adjust_offset_for_sparse` (src/hasher.rs lines 59-112): `probe = none`
models a failed ioctl or a non-Linux build (the non-Linux variant returns
`target` unadjusted); `probe = some exts` models a successful fiemap call
returning `exts` mapped extents (`some []` is `fm_mapped_extents = 0`).
The `_fsize` parameter mirrors the Rust `_file_size` argument, which the
source never reads. -/
def adjust_offset_for_sparse (probe : Option (List Extent)) (target : Nat)
    (_fsize : Nat) : Nat :=
  match probe with
  | none => target
  | some exts => (findAdjust target exts).getD target

/-- `sparse_hash` (src/hasher.rs lines 11-34): at most `SPARSE_TOTAL` bytes
behaves exactly like `full_hash`; otherwise feeds the 4 KiB windows at 0,
at the (possibly extent-adjusted) middle, and at `size - 4096`, in order. -/
def sparse_hash (data : ByteFile) (size : Nat) (probe : Option (List Extent)) :
    Option (List Nat) :=
  if size ≤ SPARSE_TOTAL then full_hash data
  else
    match read_at data 0 SPARSE_CHUNK with
    | none => none
    | some c1 =>
      let midTarget := size / 2 - SPARSE_CHUNK / 2
      let middle := adjust_offset_for_sparse probe midTarget size
      match read_at data middle SPARSE_CHUNK with
      | none => none
      | some c2 =>
        match read_at data (size - SPARSE_CHUNK) SPARSE_CHUNK with
        | none => none
        | some c3 => some (hashStream (c1 ++ c2 ++ c3))

/-! ### Bytewise comparison (src/dedupe.rs, compare_files) -/

/-- `BUFFER_SIZE` from src/dedupe.rs line 124: 128 KiB. -/
def BUFFER_SIZE : Nat := 128 * 1024

/-- `compare_files` (src/dedupe.rs lines 123-149): reads both files in
synchronised `BUFFER_SIZE` chunks; false as soon as the chunk lengths
disagree, true when both hit EOF (a zero-length read) together, false when
a chunk's bytes disagree, otherwise continue on the remainders. Reads are
modelled as returning `min BUFFER_SIZE remaining` bytes. -/
def compare_files (a b : List Nat) : Bool :=
  if _h1 : (a.take BUFFER_SIZE).length ≠ (b.take BUFFER_SIZE).length then false
  else if h2 : (a.take BUFFER_SIZE).length = 0 then true
  else if a.take BUFFER_SIZE ≠ b.take BUFFER_SIZE then false
  else compare_files (a.drop BUFFER_SIZE) (b.drop BUFFER_SIZE)
termination_by a.length
decreasing_by
  simp only [List.length_drop]
  have ha : a.length ≠ 0 := by
    intro h0
    apply h2
    have : a = [] := List.length_eq_zero.mp h0
    simp [this]
  exact Nat.sub_lt (Nat.pos_of_ne_zero ha) (by norm_num [BUFFER_SIZE])

/-! ### Staging-path construction (src/dedupe.rs lines 60-61 and 167-168)

Both `replace_with_link` and `restore_file` build the staging path with
`temp.set_extension("imprint_tmp")` on a clone of the target path.
`PathBuf::set_extension` acts on the final path component, so it is
modelled on file names: the extension is the portion after the last dot,
except when that dot is the leading character; `set_extension` replaces an
existing extension and appends one otherwise. -/

/-- Index in `name` at which the extension (with its dot) starts, following
Rust's `Path::extension`: the last dot, unless it is the first character. -/
def extSplitIdx (name : List Char) : Option Nat :=
  match name.reverse.findIdx? (fun c => c == '.') with
  | none => none
  | some j =>
    let i := name.length - 1 - j
    if i = 0 then none else some i

/-- Rust's `PathBuf::set_extension` on a file name: replace an existing
extension with `ext`, or append `.ext` when there is none. -/
def set_extension (name : List Char) (ext : List Char) : List Char :=
  match extSplitIdx name with
  | none => name ++ ('.' :: ext)
  | some i => name.take i ++ ('.' :: ext)

/-- The staging name used by `replace_with_link` and `restore_file`:
`set_extension` with `imprint_tmp`, per src/dedupe.rs lines 60-61/167-168. -/
def tempName (target : String) : String :=
  String.mk (set_extension target.data "imprint_tmp".data)

/-! ### Link engine (src/dedupe.rs, replace_with_link / apply_metadata) -/

/-- `LinkType` from src/dedupe.rs lines 8-12. -/
inductive LinkType
  | Reflink
  | HardLink
deriving DecidableEq

/-- One file as seen through the metadata the engine snapshots: content,
permission mode bits, mtime, extended attributes. -/
structure FileRec where
  content : List Nat
  mode : Nat
  mtime : Nat
  xattrs : List (String × List Nat)
deriving DecidableEq

/-- The filesystem restricted to one directory's file names. -/
abbrev FS := String → Option FileRec

/-- Trace of the metadata re-application, recording its order. -/
inductive MEv
  | perms (m : Nat)
  | mtimeSet (t : Nat)
  | xattrSet (n : String) (ok : Bool)
deriving DecidableEq

/-- `xattr::set` on an attribute list: replaces any entry with that name. -/
def setX (n : String) (v : List Nat) (xs : List (String × List Nat)) :
    List (String × List Nat) :=
  xs.filter (fun p => p.1 != n) ++ [(n, v)]

/-- `xattr::get` on an attribute list. -/
def getX (n : String) : List (String × List Nat) → Option (List Nat)
  | [] => none
  | (a, v) :: t => if a = n then some v else getX n t

/-- The xattr loop of `apply_metadata` (src/dedupe.rs lines 115-118): set
each snapshotted attribute in order; `xok` is the filesystem oracle for
which attribute sets succeed (the `let _ =` ignores failures). -/
def applyX (xok : String → Bool) (base xs : List (String × List Nat)) :
    List (String × List Nat) :=
  xs.foldl (fun acc nv => if xok nv.1 then setX nv.1 nv.2 acc else acc) base

/-- `apply_metadata` (src/dedupe.rs lines 101-121): restore permissions,
then mtime, then each xattr, onto the file record at the target. -/
def apply_metadata (xok : String → Bool) (f : FileRec) (mode mt : Nat)
    (xs : List (String × List Nat)) : FileRec :=
  { f with mode := mode, mtime := mt, xattrs := applyX xok f.xattrs xs }

/-- The order of operations inside `apply_metadata`: permissions first, then
mtime, then each snapshotted xattr in list order. -/
def metaTrace (xok : String → Bool) (mode mt : Nat)
    (xs : List (String × List Nat)) : List MEv :=
  MEv.perms mode :: MEv.mtimeSet mt :: xs.map (fun nv => MEv.xattrSet nv.1 (xok nv.1))

/-- `replace_with_link` (src/dedupe.rs lines 40-99). `reflinkOk` is the
filesystem oracle for whether the reflink syscall succeeds; a successful
reflink creates an independent copy with fresh creation metadata
(`freshMode`, `freshMtime`) and no xattrs, while the hardlink fallback
makes the target share the master's record; in both cases the snapshotted
target metadata is then re-applied. The failure return (`none`) covers the
metadata-read error, the hard-link error, and the `ReflinkUnsupported`
bail-out when hardlinks are refused. -/
def replace_with_link (fs : FS) (master target : String) (allowHard reflinkOk : Bool)
    (xok : String → Bool) (freshMode freshMtime : Nat) :
    Option (FS × Option LinkType × List MEv) :=
  if master = target then some (fs, none, [])
  else
    match fs target with
    | none => none
    | some snap =>
      let temp := tempName target
      let fs0 : FS := fun p => if p = temp then none else fs p
      if reflinkOk then
        match fs0 master with
        | none => none
        | some mrec =>
          let fresh : FileRec := ⟨mrec.content, freshMode, freshMtime, []⟩
          let final := apply_metadata xok fresh snap.mode snap.mtime snap.xattrs
          some (fun p => if p = target then some final else fs0 p,
                some LinkType.Reflink, metaTrace xok snap.mode snap.mtime snap.xattrs)
      else if allowHard then
        match fs0 master with
        | none => none
        | some mrec =>
          let final := apply_metadata xok mrec snap.mode snap.mtime snap.xattrs
          some (fun p => if p = target then some final else fs0 p,
                some LinkType.HardLink, metaTrace xok snap.mode snap.mtime snap.xattrs)
      else none

/-! ### Size-grouping coordinator (src/main.rs lines 160-182) -/

/-- Coordinator state: the incremental `size_map` and the stream of paths
sent to the hashing workers. -/
structure ScanSt where
  sizeMap : Nat → List String
  dispatched : List String

/-- Initial coordinator state. -/
def initScan : ScanSt := ⟨fun _ => [], []⟩

/-- One iteration of the coordinator loop: push the path into its size
bucket; when the bucket previously held exactly one path, dispatch that
first path and the new one; when it held more, dispatch only the new one;
a first arrival is deferred. -/
def scanStep (st : ScanSt) (item : String × Nat) : ScanSt :=
  let entry := st.sizeMap item.2
  let entry' := entry ++ [item.1]
  let disp :=
    if entry.length = 1 then
      match entry'.head? with
      | some firstFile => st.dispatched ++ [firstFile, item.1]
      | none => st.dispatched
    else if 1 < entry.length then st.dispatched ++ [item.1]
    else st.dispatched
  ⟨fun s => if s = item.2 then entry' else st.sizeMap s, disp⟩

/-- The coordinator over the walker's stream of `(path, size)` pairs. -/
def scanCoordinator (items : List (String × Nat)) : ScanSt :=
  items.foldl scanStep initScan

/-! ### Dedupe orchestrator (src/main.rs lines 212-464, one group) -/

/-- Result of one `replace_with_link` call as the orchestrator classifies
it: success with an optional link type, the error whose message contains
"reflink not supported", or any other error. -/
inductive ROutcome
  | ok (lt : Option LinkType)
  | reflinkUnsupported
  | otherErr
deriving DecidableEq

/-- Observable per-group effects of the orchestrator: whether the vault
master file exists, whether a rollback restored the master to its original
path, the recorded refcount (none = `set_cas_refcount` never ran), the
paths successfully linked, the paths skipped, and the one-per-run warning
flag. -/
structure OrchSt where
  vaultHas : Bool
  masterRestored : Bool
  refcount : Option Nat
  linked : List String
  skipped : List String
  warned : Bool
deriving DecidableEq

/-- State before a group is processed. -/
def initOrch : OrchSt := ⟨false, false, none, [], [], false⟩

/-- Environment oracles for one group: per-path `replace_with_link`
outcome, per-path paranoid `compare_files` result (`none` = I/O error),
whether the master file still exists after vault ingest, and whether the
rollback rename or its copy+remove fallback succeed. -/
structure GroupCtx where
  outcome : String → ROutcome
  cmp : String → Option Bool
  masterExists : Bool
  renameBackOk : Bool
  copyBackOk : Bool

/-- Non-master path replacement (src/main.rs lines 393-440): a
`ReflinkUnsupported` failure warns and skips just that path (the inner
`continue`); any other error aborts the whole run (`return Err`). -/
def replacePath (ctx : GroupCtx) (st : OrchSt) (p : String) : Option OrchSt :=
  match ctx.outcome p with
  | .ok (some _) => some { st with linked := st.linked ++ [p] }
  | .ok none => some st
  | .reflinkUnsupported => some { st with warned := true, skipped := st.skipped ++ [p] }
  | .otherErr => none

/-- Master replacement (src/main.rs lines 308-366): on `ReflinkUnsupported`
the master is renamed back out of the vault (copy+remove across devices),
the warning fires, and the group is abandoned (the outer `continue`,
flagged by the returned Bool). -/
def masterReplace (ctx : GroupCtx) (st : OrchSt) (master : String) :
    Option (OrchSt × Bool) :=
  match ctx.outcome master with
  | .ok (some _) => some ({ st with linked := st.linked ++ [master] }, false)
  | .ok none => some (st, false)
  | .reflinkUnsupported =>
    let restored := ctx.renameBackOk || ctx.copyBackOk
    some ({ st with vaultHas := !restored, masterRestored := restored,
                    warned := true, skipped := st.skipped ++ [master] }, true)
  | .otherErr => none

/-- The loop over the group's non-master paths (src/main.rs lines 377-450),
including the paranoid pre-compare whose mismatch or error skips the
path. -/
def restFold (ctx : GroupCtx) (paranoid : Bool) :
    Option OrchSt → List String → Option OrchSt
  | none, _ => none
  | some st, [] => some st
  | some st, p :: ps =>
    if paranoid then
      match ctx.cmp p with
      | some true => restFold ctx paranoid (replacePath ctx st p) ps
      | some false => restFold ctx paranoid (some { st with skipped := st.skipped ++ [p] }) ps
      | none => restFold ctx paranoid (some { st with skipped := st.skipped ++ [p] }) ps
    else restFold ctx paranoid (replacePath ctx st p) ps

/-- One group of `dedupe_groups` (src/main.rs lines 266-462): groups of
fewer than two paths are skipped; in dry-run only messages are printed; a
real run ingests the master into the vault, optionally verifies it
(paranoid), replaces the master, folds over the remaining paths, and
finally records `set_cas_refcount(hash, paths.len())`. -/
def processGroup (ctx : GroupCtx) (paranoid dryRun : Bool) (paths : List String) :
    Option OrchSt :=
  match paths with
  | [] => some initOrch
  | [_] => some initOrch
  | master :: rest =>
    if dryRun then some initOrch
    else
      let st0 : OrchSt := { initOrch with vaultHas := true }
      let skipGroup : Bool :=
        if paranoid && ctx.masterExists then
          match ctx.cmp master with
          | some true => false
          | some false => true
          | none => true
        else false
      if skipGroup then some st0
      else
        match masterReplace ctx st0 master with
        | none => none
        | some (st1, true) => some st1
        | some (st1, false) =>
          match restFold ctx paranoid (some st1) rest with
          | none => none
          | some st2 => some { st2 with refcount := some (rest.length + 1) }

/-! ### State store (src/state.rs) and dry-run opening (src/main.rs 76-90) -/

/-- `FileMetadata` from src/types.rs (hashes abstracted to naturals). -/
structure FileMeta where
  size : Nat
  modified : Nat
  hash : Nat
deriving DecidableEq

/-- The three tables of the redb store (src/state.rs lines 6-8). -/
structure StateDb where
  fileIndex : List (String × FileMeta)
  casIndex : List (Nat × Nat)
  vaultedInodes : List Nat
deriving DecidableEq

/-- The state-store write operations the scan pipeline issues. -/
inductive StOp
  | upsertFile (p : String) (m : FileMeta)
  | setCas (h : Nat) (n : Nat)
deriving DecidableEq

/-- A write applied to a present store (src/state.rs `upsert_file`,
`set_cas_refcount`): last write wins per key. -/
def applyOpDb (db : StateDb) : StOp → StateDb
  | .upsertFile p m => { db with fileIndex := (p, m) :: db.fileIndex.filter (fun q => q.1 != p) }
  | .setCas h n => { db with casIndex := (h, n) :: db.casIndex.filter (fun q => q.1 != h) }

/-- Modelled from the spec: the state handle used by dry-run modes. The
function `State::open_readonly_if_exists` is called from src/main.rs lines
77 and 87 but its definition is not present in src/state.rs; §4.4 of the
spec says it "opens without creating" and dry-run "silently no-ops if it
does not exist". The handle is therefore `Option StateDb`, with `none` for
the absent store, and a write on `none` is a silent no-op. -/
def applyOp (s : Option StateDb) (op : StOp) : Option StateDb :=
  s.map (fun db => applyOpDb db op)

/-- Modelled from the spec: `open_readonly_if_exists` opens the store if the
state directory exists and otherwise leaves it absent, never creating the
directory (spec §4.4). -/
def open_readonly_if_exists (existing : Option StateDb) : Option StateDb :=
  existing

/-- The state writes issued by `scan_pipeline` (src/main.rs lines 149 and
203-207) regardless of dry-run: an `upsert_file` per hashed file, then a
`set_cas_refcount(hash, len)` per result group with more than one path. -/
def scanPipelineOps (hashed : List (String × FileMeta))
    (results : List (Nat × List String)) : List StOp :=
  hashed.map (fun pm => StOp.upsertFile pm.1 pm.2) ++
    (results.filter (fun g => decide (1 < g.2.length))).map
      (fun g => StOp.setCas g.1 g.2.length)

/-! ### Restore pipeline (src/main.rs lines 505-608, one file) -/

/-- The state visible to the restore sweep: file index, cas refcounts,
vaulted-inode set, and which vault master files exist on disk. -/
structure RDb where
  fileIndex : String → Option FileMeta
  cas : Nat → Option Nat
  vaulted : Nat → Bool
  vaultFiles : Nat → Bool

/-- One file of `restore_pipeline` (src/main.rs lines 539-598). `restoreOk`
is the oracle for `restore_file` succeeding. Returns the new state and
whether `restore_file` ran successfully. The hash is recovered from the
file index when the inode is vaulted, or from the index entry whose vault
master exists; on success the inode is unmarked and the path removed, then
if a hash was recovered and its refcount is positive it is decremented,
with vault removal and refcount deletion exactly at zero. -/
def restore_pipeline_step (db : RDb) (path : String) (inode : Nat)
    (restoreOk dryRun : Bool) : RDb × Bool :=
  let meta := db.fileIndex path
  let fromInode := db.vaulted inode
  let needs : Bool :=
    fromInode || (match meta with
      | some m => db.vaultFiles m.hash
      | none => false)
  let targetHash : Option Nat :=
    if fromInode then meta.map (fun m => m.hash)
    else
      match meta with
      | some m => if db.vaultFiles m.hash then some m.hash else none
      | none => none
  if !needs then (db, false)
  else if dryRun then (db, false)
  else if !restoreOk then (db, false)
  else
    let db1 : RDb := { db with
      vaulted := fun i => if i = inode then false else db.vaulted i,
      fileIndex := fun p => if p = path then none else db.fileIndex p }
    match targetHash with
    | none => (db1, true)
    | some h =>
      let r := (db1.cas h).getD 0
      if 0 < r then
        if r - 1 = 0 then
          ({ db1 with
              vaultFiles := fun x => if x = h then false else db1.vaultFiles x,
              cas := fun x => if x = h then none else db1.cas x }, true)
        else ({ db1 with cas := fun x => if x = h then some (r - 1) else db1.cas x }, true)
      else (db1, true)

/-! ### Concrete instances used by the witnesses -/

/-- A two-file filesystem for the C5 witness: master `m`, target `t`. -/
def demoFS : FS := fun p =>
  if p = "m" then some ⟨[1, 2], 7, 5, [("user.k", [9])]⟩
  else if p = "t" then some ⟨[1, 2], 4, 3, [("user.a", [8])]⟩
  else none

/-- Snapshot of `demoFS` at `t`. -/
def demoSnap : FileRec := ⟨[1, 2], 4, 3, [("user.a", [8])]⟩

/-- Record of `demoFS` at `m`. -/
def demoMrec : FileRec := ⟨[1, 2], 7, 5, [("user.k", [9])]⟩

/-- Group context for the C1 counterexample: the master's replacement
reflinks fine, every other path fails with `ReflinkUnsupported`. -/
def demoCtxC1 : GroupCtx :=
  { outcome := fun p => if p = "m" then ROutcome.ok (some LinkType.Reflink)
      else ROutcome.reflinkUnsupported,
    cmp := fun _ => some true,
    masterExists := false,
    renameBackOk := true,
    copyBackOk := true }

/-- Group context whose master replacement fails with `ReflinkUnsupported`. -/
def demoCtxMasterFail : GroupCtx :=
  { outcome := fun _ => ROutcome.reflinkUnsupported,
    cmp := fun _ => some true,
    masterExists := false,
    renameBackOk := true,
    copyBackOk := false }

/-- Restore-pipeline state for the C6 witness: path `a` with inode 7 is
vaulted, hash 3 has refcount 2 and a vault master on disk. -/
def demoRDb : RDb :=
  { fileIndex := fun p => if p = "a" then some ⟨10, 0, 3⟩ else none,
    cas := fun h => if h = 3 then some 2 else none,
    vaulted := fun i => i = 7,
    vaultFiles := fun h => h = 3 }

/-- Restore-pipeline state for the C10 witness: inode 7 vaulted but no file
index entry at all; hash 3 still has a master and refcount 2. -/
def demoRDbNoIndex : RDb :=
  { fileIndex := fun _ => none,
    cas := fun h => if h = 3 then some 2 else none,
    vaulted := fun i => i = 7,
    vaultFiles := fun h => h = 3 }

end Imprint

namespace Imprint

/-! ### Theorems -/

/-- Claim C8: for every file and every pre-measured size at most
`SPARSE_TOTAL` (12288 bytes), `sparse_hash` returns exactly the result of
`full_hash` on the same file, whatever the extent probe reports. -/
theorem sparse_hash_eq_full_hash_of_small (data : ByteFile) (size : Nat)
    (probe : Option (List Extent)) (h : size ≤ SPARSE_TOTAL) :
    sparse_hash data size probe = full_hash data := by
  simp [sparse_hash, h]

/-- Witness for C8 at a concrete small file. -/
theorem sparse_hash_eq_full_hash_of_small_witness :
    101 ≤ SPARSE_TOTAL ∧
      sparse_hash [1, 2, 3] 101 (some [(0, 4096)]) = full_hash [1, 2, 3] :=
  ⟨by decide, sparse_hash_eq_full_hash_of_small [1, 2, 3] 101 (some [(0, 4096)]) (by decide)⟩

/-- Claim C7, counterexample: with file size 20480 the claim caps the middle
offset at `size - 4096 = 16384`, but when the next allocated extent begins
at 16500 the code returns 16500 uncapped. -/
theorem adjust_offset_uncapped_counterexample :
    adjust_offset_for_sparse (some [(16500, 1000)]) 8192 20480 = 16500 ∧
      ¬ (16500 ≤ 20480 - SPARSE_CHUNK) := by
  constructor
  · rfl
  · decide

/-- Claim C7, amended: the file-size argument of `adjust_offset_for_sparse`
is ignored, so the extent start is used uncapped (it may exceed
`size - 4096`, in which case the middle `read_at` fails); a failed or
unavailable extent query leaves the middle target unchanged. -/
theorem adjust_offset_amended :
    (∀ target fsize, adjust_offset_for_sparse none target fsize = target) ∧
    (∀ probe target fsize fsize',
        adjust_offset_for_sparse probe target fsize =
          adjust_offset_for_sparse probe target fsize') ∧
    adjust_offset_for_sparse (some [(16500, 1000)]) 8192 20480 = 16500 ∧
    (∀ data : ByteFile, data.length = 20480 →
        sparse_hash data 20480 (some [(16500, 1000)]) = none) := by
  refine ⟨fun target fsize => rfl, fun probe target fsize fsize' => ?_, rfl, ?_⟩
  · cases probe <;> rfl
  · intro data hdata
    have h1 : ¬ (20480 ≤ SPARSE_TOTAL) := by decide
    have hr1 : read_at data 0 SPARSE_CHUNK = some ((data.drop 0).take SPARSE_CHUNK) := by
      rw [read_at, if_pos]
      rw [hdata]; decide
    have hadj : adjust_offset_for_sparse (some [(16500, 1000)])
        (20480 / 2 - SPARSE_CHUNK / 2) 20480 = 16500 := rfl
    have hr2 : read_at data 16500 SPARSE_CHUNK = none := by
      rw [read_at, if_neg]
      rw [hdata]; decide
    unfold sparse_hash
    rw [if_neg h1, hr1]
    simp only [hadj, hr2]

/-- Witness for C7's amended claim: the middle-read failure branch at a
concrete 20480-byte file. -/
theorem adjust_offset_amended_witness :
    sparse_hash (List.replicate 20480 0) 20480 (some [(16500, 1000)]) = none :=
  adjust_offset_amended.2.2.2 (List.replicate 20480 0) (by rw [List.length_replicate])

/-- Core induction for C4, on the length of the first file. -/
theorem compare_files_aux : ∀ (n : Nat) (a b : List Nat), a.length = n →
    (compare_files a b = true ↔ a = b) := by
  intro n
  induction n using Nat.strongRecOn with
  | ind n ih =>
    intro a b hlen
    unfold compare_files
    split_ifs with h1 h2 h3
    · simp only [Bool.false_eq_true, false_iff]
      intro hab
      exact h1 (by rw [hab])
    · have ha : a = [] := by
        rcases List.take_eq_nil_iff.mp (List.length_eq_zero.mp h2) with h | h
        · exact absurd h (by norm_num [BUFFER_SIZE])
        · exact h
      have hb : b = [] := by
        have hb2 : (b.take BUFFER_SIZE).length = 0 := by omega
        rcases List.take_eq_nil_iff.mp (List.length_eq_zero.mp hb2) with h | h
        · exact absurd h (by norm_num [BUFFER_SIZE])
        · exact h
      simp [ha, hb]
    · simp only [Bool.false_eq_true, false_iff]
      intro hab
      exact h3 (by rw [hab])
    · push_neg at h3
      have hane : a.length ≠ 0 := by
        intro h0
        apply h2
        have : a = [] := List.length_eq_zero.mp h0
        simp [this]
      have hlt : (a.drop BUFFER_SIZE).length < n := by
        rw [List.length_drop, ← hlen]
        exact Nat.sub_lt (Nat.pos_of_ne_zero hane) (by norm_num [BUFFER_SIZE])
      rw [ih _ hlt _ _ rfl]
      constructor
      · intro hdrop
        calc a = a.take BUFFER_SIZE ++ a.drop BUFFER_SIZE := (List.take_append_drop _ _).symm
          _ = b.take BUFFER_SIZE ++ b.drop BUFFER_SIZE := by rw [h3, hdrop]
          _ = b := List.take_append_drop _ _
      · intro hab
        rw [hab]

/-- Claim C4: `compare_files` returns true exactly when the byte contents of
the two files are equal; in particular it is false at any size-or-content
disagreement and true exactly when both inputs are exhausted together. -/
theorem compare_files_iff (a b : List Nat) : compare_files a b = true ↔ a = b :=
  compare_files_aux a.length a b rfl

/-- Claim C3, counterexample: the target `a.txt` stages at `a.imprint_tmp`
(its extension is replaced), not at `a.txt.imprint_tmp` as the claim
states; moreover the distinct targets `a.txt` and `a.bin` collide on the
same staging name. -/
theorem tempName_counterexample :
    tempName "a.txt" = "a.imprint_tmp" ∧
    tempName "a.txt" ≠ "a.txt" ++ ".imprint_tmp" ∧
    tempName "a.bin" = tempName "a.txt" ∧ "a.bin" ≠ "a.txt" := by
  refine ⟨by decide, by decide, by decide, by decide⟩

/-- Claim C3, amended: the staging path is the target with its final
extension replaced by `imprint_tmp`; it equals the target with the literal
suffix `.imprint_tmp` appended exactly when the target's file name
contains no dot, and two targets differing only in their extension share
one staging name. -/
theorem tempName_amended :
    (∀ name : List Char, '.' ∉ name →
        set_extension name "imprint_tmp".data = name ++ ".imprint_tmp".data) ∧
    tempName "a.txt" = "a.imprint_tmp" ∧
    tempName "a.bin" = "a.imprint_tmp" := by
  refine ⟨?_, by decide, by decide⟩
  intro name h
  have hnone : name.reverse.findIdx? (fun c => c == '.') = none := by
    rw [List.findIdx?_eq_none_iff]
    intro x hx
    simp only [beq_eq_false_iff_ne]
    intro hc
    rw [hc] at hx
    exact h (List.mem_reverse.mp hx)
  rw [set_extension, extSplitIdx, hnone]

/-- Witness for C3's amended claim at the dotless name `abc`. -/
theorem tempName_amended_witness :
    set_extension "abc".data "imprint_tmp".data = "abc".data ++ ".imprint_tmp".data :=
  tempName_amended.1 "abc".data (by decide)

/-- `getX` after `setX` of the same name. -/
theorem getX_setX_self (n : String) (v : List Nat) (xs : List (String × List Nat)) :
    getX n (setX n v xs) = some v := by
  induction xs with
  | nil => simp [setX, getX]
  | cons p t ih =>
    obtain ⟨a, w⟩ := p
    by_cases hp : a = n
    · simpa [setX, hp] using ih
    · have hf : (a != n) = true := by simpa using hp
      simp only [setX, List.filter_cons, hf, cond_true, List.cons_append] at ih ⊢
      simpa [getX, hp] using ih

/-- `getX` after `setX` of a different name. -/
theorem getX_setX_ne (n a : String) (h : n ≠ a) (b : List Nat)
    (xs : List (String × List Nat)) :
    getX n (setX a b xs) = getX n xs := by
  induction xs with
  | nil =>
    simp only [setX, List.filter_nil, List.nil_append, getX]
    rw [if_neg (fun hc => h hc.symm)]
  | cons p t ih =>
    obtain ⟨c, w⟩ := p
    by_cases hp : c = a
    · have hpn : ¬ c = n := by rw [hp]; exact fun hc => h hc.symm
      simp only [setX, List.filter_cons] at ih ⊢
      simp only [hp, bne_self_eq_false, Bool.false_eq_true, if_false] at ih ⊢
      rw [ih]
      simp only [getX]
      rw [if_neg (fun hc : a = n => h hc.symm)]
    · have hf : (c != a) = true := by simpa using hp
      simp only [setX, List.filter_cons, hf, if_true, List.cons_append] at ih ⊢
      by_cases hpn : c = n
      · simp [getX, hpn]
      · simp only [getX, if_neg hpn]
        exact ih

/-- `applyX` only depends on the base through `getX` at the probed name. -/
theorem getX_applyX_congr (xok : String → Bool) (n : String)
    (xs : List (String × List Nat)) :
    ∀ base₁ base₂, getX n base₁ = getX n base₂ →
      getX n (applyX xok base₁ xs) = getX n (applyX xok base₂ xs) := by
  induction xs with
  | nil => intro b₁ b₂ h; simpa [applyX] using h
  | cons p t ih =>
    intro b₁ b₂ h
    have hc : ∀ base : List (String × List Nat), applyX xok base (p :: t) =
        applyX xok (if xok p.1 then setX p.1 p.2 base else base) t := fun _ => rfl
    rw [hc, hc]
    by_cases hx : xok p.1 = true
    · simp only [hx, if_true]
      apply ih
      by_cases hn : n = p.1
      · rw [hn, getX_setX_self, getX_setX_self]
      · rw [getX_setX_ne n p.1 hn, getX_setX_ne n p.1 hn, h]
    · simp only [hx, if_false]
      exact ih _ _ h

/-- `applyX` of attributes not containing the probed name. -/
theorem getX_applyX_not_mem (xok : String → Bool) (n : String)
    (xs : List (String × List Nat)) (h : n ∉ xs.map Prod.fst) :
    ∀ base, getX n (applyX xok base xs) = getX n base := by
  induction xs with
  | nil => intro base; simp [applyX]
  | cons p t ih =>
    intro base
    have hn : n ≠ p.1 := by
      intro hc
      exact h (by simp [hc])
    have ht : n ∉ t.map Prod.fst := fun hm => h (by simp [hm])
    have hc : applyX xok base (p :: t) =
        applyX xok (if xok p.1 then setX p.1 p.2 base else base) t := rfl
    rw [hc]
    by_cases hx : xok p.1 = true
    · simp only [hx, if_true]
      rw [ih ht _, getX_setX_ne n p.1 hn]
    · simp only [hx, if_false]
      exact ih ht _

/-- A successfully re-applied attribute is retrievable afterwards. -/
theorem getX_applyX_mem (xok : String → Bool) (n : String) (v : List Nat)
    (xs : List (String × List Nat)) (hnd : (xs.map Prod.fst).Nodup)
    (hmem : (n, v) ∈ xs) (hok : xok n = true) :
    ∀ base, getX n (applyX xok base xs) = some v := by
  induction xs with
  | nil => cases hmem
  | cons p t ih =>
    intro base
    simp only [List.map_cons, List.nodup_cons] at hnd
    have hcons : applyX xok base (p :: t) =
        applyX xok (if xok p.1 then setX p.1 p.2 base else base) t := rfl
    rw [hcons]
    rcases List.mem_cons.mp hmem with heq | hmemt
    · have ha : n = p.1 := by rw [← heq]
      have hw : v = p.2 := by rw [← heq]
      have hnt : n ∉ t.map Prod.fst := by rw [ha]; exact hnd.1
      have hcond : (if xok p.1 = true then setX p.1 p.2 base else base) =
          setX n v base := by
        rw [← ha, ← hw, hok]
        simp
      rw [hcond, getX_applyX_not_mem xok n t hnt, getX_setX_self]
    · have hn : n ≠ p.1 := by
        intro hc
        apply hnd.1
        rw [← hc]
        exact List.mem_map_of_mem Prod.fst hmemt
      by_cases hx : xok p.1 = true
      · simp only [hx, if_true]
        exact ih hnd.2 hmemt _
      · simp only [hx, if_false]
        exact ih hnd.2 hmemt _

/-- Re-applying a duplicate-free snapshot onto an empty attribute set
reproduces exactly the snapshot (as a lookup table). -/
theorem getX_applyX_nil_base (xok : String → Bool)
    (xs : List (String × List Nat)) (hnd : (xs.map Prod.fst).Nodup)
    (hok : ∀ p ∈ xs, xok p.1 = true) :
    ∀ n, getX n (applyX xok [] xs) = getX n xs := by
  induction xs with
  | nil => intro n; simp [applyX]
  | cons p t ih =>
    intro n
    obtain ⟨a, w⟩ := p
    simp only [List.map_cons, List.nodup_cons] at hnd
    have hokp : xok a = true := hok (a, w) (List.mem_cons_self _ _)
    have hcons : applyX xok [] ((a, w) :: t) =
        applyX xok (if xok (a, w).1 then setX (a, w).1 (a, w).2 [] else []) t := rfl
    rw [hcons]
    have hcond : (if xok (a, w).1 = true then setX (a, w).1 (a, w).2 [] else []) =
        setX a w [] := by
      simp [hokp]
    rw [hcond]
    by_cases hn : n = a
    · subst hn
      rw [getX_applyX_not_mem xok n t hnd.1, getX_setX_self]
      simp [getX]
    · have hb : getX n (setX a w []) = getX n ([] : List (String × List Nat)) :=
        getX_setX_ne n a hn w []
      rw [getX_applyX_congr xok n t _ _ hb,
        ih hnd.2 (fun q hq => hok q (List.mem_cons_of_mem _ hq)) n]
      simp only [getX]
      rw [if_neg (fun hc : a = n => hn hc.symm)]

/-- Claim C5: a successful `replace_with_link` with distinct master and
target re-applies the snapshotted metadata to the target — permissions
first, then mtime, then each xattr, per the recorded trace — so the
target's mode and mtime are unchanged, every snapshotted xattr keeps its
value, and under a reflink the xattr table is unchanged as a whole. -/
theorem replace_with_link_preserves_metadata
    (fs : FS) (master target : String) (allowHard reflinkOk : Bool)
    (xok : String → Bool) (fm ft : Nat) (snap mrec : FileRec)
    (hne : master ≠ target)
    (hmt : master ≠ tempName target)
    (hsnap : fs target = some snap)
    (hmrec : fs master = some mrec)
    (hnd : (snap.xattrs.map Prod.fst).Nodup)
    (hok : ∀ p ∈ snap.xattrs, xok p.1 = true)
    (hcap : reflinkOk = true ∨ allowHard = true) :
    ∃ fs' lt final,
      replace_with_link fs master target allowHard reflinkOk xok fm ft =
        some (fs', some lt, metaTrace xok snap.mode snap.mtime snap.xattrs) ∧
      fs' target = some final ∧
      final.mode = snap.mode ∧
      final.mtime = snap.mtime ∧
      (∀ n v, (n, v) ∈ snap.xattrs → getX n final.xattrs = some v) ∧
      (reflinkOk = true → ∀ n, getX n final.xattrs = getX n snap.xattrs) := by
  have hfs0 : (if master = tempName target then none else fs master) = some mrec := by
    rw [if_neg hmt, hmrec]
  by_cases hrf : reflinkOk = true
  · refine ⟨fun p => if p = target then
        some (apply_metadata xok ⟨mrec.content, fm, ft, []⟩ snap.mode snap.mtime snap.xattrs)
      else if p = tempName target then none else fs p, LinkType.Reflink,
      apply_metadata xok ⟨mrec.content, fm, ft, []⟩ snap.mode snap.mtime snap.xattrs,
      ?_, ?_, rfl, rfl, ?_, ?_⟩
    · rw [replace_with_link, if_neg hne, hsnap]
      simp only [hrf, if_true, hfs0]
    · simp
    · intro n v hmem
      exact getX_applyX_mem xok n v snap.xattrs hnd hmem (hok (n, v) hmem) _
    · intro _ n
      exact getX_applyX_nil_base xok snap.xattrs hnd hok n
  · have hah : allowHard = true := hcap.resolve_left hrf
    refine ⟨fun p => if p = target then
        some (apply_metadata xok mrec snap.mode snap.mtime snap.xattrs)
      else if p = tempName target then none else fs p, LinkType.HardLink,
      apply_metadata xok mrec snap.mode snap.mtime snap.xattrs,
      ?_, ?_, rfl, rfl, ?_, ?_⟩
    · rw [replace_with_link, if_neg hne, hsnap]
      have hrf' : reflinkOk = false := Bool.not_eq_true _ |>.mp hrf
      simp only [hrf', Bool.false_eq_true, if_false, hah, if_true, hfs0]
    · simp
    · intro n v hmem
      exact getX_applyX_mem xok n v snap.xattrs hnd hmem (hok (n, v) hmem) _
    · intro hcontra
      exact absurd hcontra hrf

/-- Coordinator invariant, proved over every walked prefix: the size map
holds each size's paths in arrival order, and a path has been dispatched
exactly when it arrived with some size whose bucket has ≥ 2 entries. -/
theorem scanInv_holds : ∀ l : List (String × Nat),
    (∀ s, (scanCoordinator l).sizeMap s =
        (l.filter (fun it => it.2 == s)).map Prod.fst) ∧
    (∀ x, x ∈ (scanCoordinator l).dispatched ↔
        ∃ s, (x, s) ∈ l ∧ 2 ≤ (l.filter (fun it => it.2 == s)).length) := by
  intro l
  induction l using List.reverseRecOn with
  | nil =>
    constructor
    · intro s
      simp [scanCoordinator, initScan]
    · intro x
      simp [scanCoordinator, initScan]
  | append_singleton l item ih =>
    obtain ⟨ihm, ihd⟩ := ih
    obtain ⟨p, sz⟩ := item
    have hfold : scanCoordinator (l ++ [(p, sz)]) = scanStep (scanCoordinator l) (p, sz) := by
      simp [scanCoordinator, List.foldl_append]
    have hC' : ∀ s, (List.filter (fun it => it.2 == s) (l ++ [(p, sz)])).length =
        (List.filter (fun it => it.2 == s) l).length + (if s = sz then 1 else 0) := by
      intro s
      rw [List.filter_append, List.length_append]
      congr 1
      by_cases hs : s = sz
      · subst hs; simp
      · have hbe : (sz == s) = false := beq_eq_false_iff_ne.mpr (fun h => hs h.symm)
        simp [hbe, hs, List.filter]
    have hmemApp : ∀ (x : String) (s : Nat), (x, s) ∈ l ++ [(p, sz)] ↔
        ((x, s) ∈ l ∨ (x = p ∧ s = sz)) := by
      intro x s
      rw [List.mem_append]
      simp [Prod.ext_iff]
    constructor
    · intro s
      rw [hfold]
      show (if s = sz then (scanCoordinator l).sizeMap sz ++ [p]
          else (scanCoordinator l).sizeMap s) =
        ((l ++ [(p, sz)]).filter (fun it => it.2 == s)).map Prod.fst
      by_cases hs : s = sz
      · subst hs
        rw [if_pos rfl, ihm s, List.filter_append, List.map_append]
        simp
      · rw [if_neg hs, ihm s, List.filter_append, List.map_append]
        have hbe : (sz == s) = false := beq_eq_false_iff_ne.mpr (fun h => hs h.symm)
        simp [hbe, List.filter]
    · intro x
      rw [hfold]
      have hentry : (scanCoordinator l).sizeMap sz =
          (l.filter (fun it => it.2 == sz)).map Prod.fst := ihm sz
      have hlenEq : ((scanCoordinator l).sizeMap sz).length =
          (l.filter (fun it => it.2 == sz)).length := by
        rw [hentry, List.length_map]
      show x ∈ (if ((scanCoordinator l).sizeMap sz).length = 1 then
            match ((scanCoordinator l).sizeMap sz ++ [p]).head? with
            | some firstFile => (scanCoordinator l).dispatched ++ [firstFile, p]
            | none => (scanCoordinator l).dispatched
          else if 1 < ((scanCoordinator l).sizeMap sz).length then
            (scanCoordinator l).dispatched ++ [p]
          else (scanCoordinator l).dispatched) ↔ _
      rcases Nat.lt_trichotomy ((scanCoordinator l).sizeMap sz).length 1 with hn | hn | hn
      · have h0 : ((scanCoordinator l).sizeMap sz).length = 0 := by omega
        have hC0 : (l.filter (fun it => it.2 == sz)).length = 0 := by rw [← hlenEq]; exact h0
        rw [if_neg (by omega), if_neg (by omega)]
        rw [ihd x]
        constructor
        · rintro ⟨s, hs, hc⟩
          refine ⟨s, (hmemApp x s).mpr (Or.inl hs), ?_⟩
          rw [hC' s]
          omega
        · rintro ⟨s, hs, hc⟩
          rw [hC' s] at hc
          rcases (hmemApp x s).mp hs with hin | ⟨hxp, hssz⟩
          · by_cases hssz : s = sz
            · subst hssz
              rw [if_pos rfl] at hc
              omega
            · rw [if_neg hssz] at hc
              exact ⟨s, hin, by omega⟩
          · subst hssz
            rw [if_pos rfl] at hc
            omega
      · have hC1 : (l.filter (fun it => it.2 == sz)).length = 1 := by rw [← hlenEq]; exact hn
        obtain ⟨e0, he0⟩ : ∃ e0, l.filter (fun it => it.2 == sz) = [e0] :=
          List.length_eq_one.mp hC1
        have he0l : e0 ∈ l := List.mem_of_mem_filter (he0 ▸ List.mem_singleton_self e0)
        have he0sz : e0.2 = sz := by
          have := List.of_mem_filter (he0 ▸ List.mem_singleton_self e0)
          exact beq_iff_eq.mp this
        have hheads : ((scanCoordinator l).sizeMap sz ++ [p]).head? = some e0.1 := by
          rw [hentry, he0]
          rfl
        rw [if_pos hn, hheads]
        constructor
        · intro hx
          rcases List.mem_append.mp hx with hx | hx
          · obtain ⟨s, hs, hc⟩ := (ihd x).mp hx
            refine ⟨s, (hmemApp x s).mpr (Or.inl hs), ?_⟩
            rw [hC' s]
            omega
          · rcases List.mem_cons.mp hx with rfl | hx
            · refine ⟨sz, (hmemApp e0.1 sz).mpr (Or.inl (by rw [← he0sz]; exact he0l)), ?_⟩
              rw [hC' sz, if_pos rfl, hC1]
            · rcases List.mem_singleton.mp hx with rfl
              refine ⟨sz, (hmemApp x sz).mpr (Or.inr ⟨rfl, rfl⟩), ?_⟩
              rw [hC' sz, if_pos rfl, hC1]
        · rintro ⟨s, hs, hc⟩
          rw [hC' s] at hc
          rcases (hmemApp x s).mp hs with hin | ⟨hxp, hssz⟩
          · by_cases hssz : s = sz
            · subst hssz
              have : (x, s) ∈ l.filter (fun it => it.2 == s) :=
                List.mem_filter.mpr ⟨hin, by simp⟩
              rw [he0] at this
              rcases List.mem_singleton.mp this with rfl
              exact List.mem_append.mpr (Or.inr (List.mem_cons_self _ _))
            · rw [if_neg hssz] at hc
              exact List.mem_append.mpr (Or.inl ((ihd x).mpr ⟨s, hin, by omega⟩))
          · subst hxp hssz
            exact List.mem_append.mpr (Or.inr (by simp))
      · have hC2 : 2 ≤ (l.filter (fun it => it.2 == sz)).length := by rw [← hlenEq]; omega
        rw [if_neg (by omega), if_pos hn]
        constructor
        · intro hx
          rcases List.mem_append.mp hx with hx | hx
          · obtain ⟨s, hs, hc⟩ := (ihd x).mp hx
            refine ⟨s, (hmemApp x s).mpr (Or.inl hs), ?_⟩
            rw [hC' s]
            omega
          · rcases List.mem_singleton.mp hx with rfl
            refine ⟨sz, (hmemApp x sz).mpr (Or.inr ⟨rfl, rfl⟩), ?_⟩
            rw [hC' sz, if_pos rfl]
            omega
        · rintro ⟨s, hs, hc⟩
          rw [hC' s] at hc
          rcases (hmemApp x s).mp hs with hin | ⟨hxp, hssz⟩
          · by_cases hssz : s = sz
            · subst hssz
              exact List.mem_append.mpr (Or.inl ((ihd x).mpr ⟨s, hin, hC2⟩))
            · rw [if_neg hssz] at hc
              exact List.mem_append.mpr (Or.inl ((ihd x).mpr ⟨s, hin, by omega⟩))
          · subst hxp
            exact List.mem_append.mpr (Or.inr (by simp))

/-- In a duplicate-free walk, a path arrives with a unique size. -/
theorem size_unique : ∀ (items : List (String × Nat)),
    (items.map Prod.fst).Nodup →
      ∀ q s₁ s₂, (q, s₁) ∈ items → (q, s₂) ∈ items → s₁ = s₂ := by
  intro items
  induction items with
  | nil => intro _ q s₁ s₂ h1; cases h1
  | cons it t ih =>
    intro hnd q s₁ s₂ h1 h2
    simp only [List.map_cons, List.nodup_cons] at hnd
    rcases List.mem_cons.mp h1 with e1 | m1
    · rcases List.mem_cons.mp h2 with e2 | m2
      · rw [← e1] at e2
        exact congrArg Prod.snd e2.symm
      · exfalso
        apply hnd.1
        have hq : q ∈ List.map Prod.fst t := List.mem_map_of_mem Prod.fst m2
        rw [← e1]
        exact hq
    · rcases List.mem_cons.mp h2 with e2 | m2
      · exfalso
        apply hnd.1
        have hq : q ∈ List.map Prod.fst t := List.mem_map_of_mem Prod.fst m1
        rw [← e2]
        exact hq
      · exact ih hnd.2 q s₁ s₂ m1 m2

/-- Claim C9: in the size-grouping coordinator, a walked file is dispatched
to the hashing workers exactly when it is not the only file of its size
in the walk. -/
theorem scan_dispatch_iff (items : List (String × Nat))
    (hnd : (items.map Prod.fst).Nodup) (p : String) (sz : Nat)
    (hmem : (p, sz) ∈ items) :
    p ∈ (scanCoordinator items).dispatched ↔
      2 ≤ (items.filter (fun it => it.2 == sz)).length := by
  rw [(scanInv_holds items).2 p]
  constructor
  · rintro ⟨s, hs, hc⟩
    rwa [size_unique items hnd p s sz hs hmem] at hc
  · intro hc
    exact ⟨sz, hmem, hc⟩

/-- Witness for C9 on a concrete walk: sizes 5, 5, 7 dispatch the two
files of size 5 and defer the lone file of size 7 forever. -/
theorem scan_dispatch_iff_witness :
    ("a" ∈ (scanCoordinator [("a", 5), ("b", 5), ("c", 7)]).dispatched ↔
      2 ≤ (([("a", 5), ("b", 5), ("c", 7)] : List (String × Nat)).filter
        (fun it => it.2 == 5)).length) ∧
    ("c" ∈ (scanCoordinator [("a", 5), ("b", 5), ("c", 7)]).dispatched ↔
      2 ≤ (([("a", 5), ("b", 5), ("c", 7)] : List (String × Nat)).filter
        (fun it => it.2 == 7)).length) :=
  ⟨scan_dispatch_iff [("a", 5), ("b", 5), ("c", 7)] (by decide) "a" 5 (by decide),
   scan_dispatch_iff [("a", 5), ("b", 5), ("c", 7)] (by decide) "c" 7 (by decide)⟩

/-- Witness for C5 on the concrete two-file filesystem `demoFS`. -/
theorem replace_with_link_preserves_metadata_witness :
    ∃ fs' lt final,
      replace_with_link demoFS "m" "t" false true (fun _ => true) 6 6 =
        some (fs', some lt, metaTrace (fun _ => true) demoSnap.mode demoSnap.mtime demoSnap.xattrs) ∧
      fs' "t" = some final ∧
      final.mode = demoSnap.mode ∧
      final.mtime = demoSnap.mtime ∧
      (∀ n v, (n, v) ∈ demoSnap.xattrs → getX n final.xattrs = some v) ∧
      (true = true → ∀ n, getX n final.xattrs = getX n demoSnap.xattrs) :=
  replace_with_link_preserves_metadata demoFS "m" "t" false true (fun _ => true) 6 6
    demoSnap demoMrec (by decide) (by decide) (by decide) (by decide)
    (by decide) (by decide) (Or.inl rfl)

/-- Claim C1, counterexample: in the group `["m", "p"]` the master's
replacement reflinks fine but `p` fails with `ReflinkUnsupported`; the
orchestrator merely warns and skips `p` — the vault master stays, no
rollback happens, and `set_cas_refcount(hash, 2)` still runs — contradicting
the claim that any such failure rolls the master back, abandons the group,
and records no refcount. -/
theorem dedupe_nonmaster_unsupported_counterexample :
    processGroup demoCtxC1 false false ["m", "p"] =
      some { vaultHas := true, masterRestored := false, refcount := some 2,
             linked := ["m"], skipped := ["p"], warned := true } := by decide

/-- The non-master loop never rolls back or abandons: absent a fatal error
it completes, preserving the vault flag, rollback flag and refcount, and
adding exactly the `ReflinkUnsupported` paths to the skipped list. -/
theorem restFold_no_other_err (ctx : GroupCtx) :
    ∀ (rest : List String), (∀ q ∈ rest, ctx.outcome q ≠ ROutcome.otherErr) →
      ∀ st : OrchSt, ∃ st' : OrchSt,
        restFold ctx false (some st) rest = some st' ∧
        st'.vaultHas = st.vaultHas ∧
        st'.masterRestored = st.masterRestored ∧
        st'.refcount = st.refcount ∧
        (∀ p, p ∈ st.skipped → p ∈ st'.skipped) ∧
        (∀ p ∈ rest, ctx.outcome p = ROutcome.reflinkUnsupported → p ∈ st'.skipped) := by
  intro rest
  induction rest with
  | nil =>
    intro _ st
    exact ⟨st, rfl, rfl, rfl, rfl, fun p hp => hp, fun p hp => absurd hp (List.not_mem_nil p)⟩
  | cons q qs ih =>
    intro hne st
    have hq : ctx.outcome q ≠ ROutcome.otherErr := hne q (List.mem_cons_self _ _)
    have hqs : ∀ r ∈ qs, ctx.outcome r ≠ ROutcome.otherErr :=
      fun r hr => hne r (List.mem_cons_of_mem _ hr)
    have hstep : restFold ctx false (some st) (q :: qs) =
        restFold ctx false (replacePath ctx st q) qs := by
      rw [restFold]
      simp
    rcases houtq : ctx.outcome q with lt | _ | _
    · rcases lt with _ | lt
      · have hrp : replacePath ctx st q = some st := by rw [replacePath, houtq]
        obtain ⟨st', h1, h2, h3, h4, h5, h6⟩ := ih hqs st
        refine ⟨st', ?_, h2, h3, h4, h5, ?_⟩
        · rw [hstep, hrp, h1]
        · intro p hp hout
          rcases List.mem_cons.mp hp with rfl | hp
          · rw [houtq] at hout; cases hout
          · exact h6 p hp hout
      · have hrp : replacePath ctx st q = some { st with linked := st.linked ++ [q] } := by
          rw [replacePath, houtq]
        obtain ⟨st', h1, h2, h3, h4, h5, h6⟩ := ih hqs { st with linked := st.linked ++ [q] }
        refine ⟨st', ?_, h2, h3, h4, h5, ?_⟩
        · rw [hstep, hrp, h1]
        · intro p hp hout
          rcases List.mem_cons.mp hp with rfl | hp
          · rw [houtq] at hout; cases hout
          · exact h6 p hp hout
    · have hrp : replacePath ctx st q =
          some { st with warned := true, skipped := st.skipped ++ [q] } := by
        rw [replacePath, houtq]
      obtain ⟨st', h1, h2, h3, h4, h5, h6⟩ :=
        ih hqs { st with warned := true, skipped := st.skipped ++ [q] }
      refine ⟨st', ?_, h2, h3, h4, ?_, ?_⟩
      · rw [hstep, hrp, h1]
      · intro p hp
        exact h5 p (List.mem_append.mpr (Or.inl hp))
      · intro p hp hout
        rcases List.mem_cons.mp hp with rfl | hp
        · exact h5 p (List.mem_append.mpr (Or.inr (by simp)))
        · exact h6 p hp hout
    · exact absurd houtq hq

/-- Claim C1, amended: the rollback (rename the vault master back, falling
back to copy+remove) and the abandonment of the group — with no refcount
recorded — happen exactly when the MASTER's replacement fails with
`ReflinkUnsupported`; when a non-master path fails that way the
orchestrator only warns and skips that path, keeps the vault master, and
still records a refcount equal to the full group size. -/
theorem dedupe_reflink_unsupported_amended :
    (∀ (ctx : GroupCtx) (master r : String) (rs : List String),
        ctx.outcome master = ROutcome.reflinkUnsupported →
        processGroup ctx false false (master :: r :: rs) =
          some { vaultHas := !(ctx.renameBackOk || ctx.copyBackOk),
                 masterRestored := ctx.renameBackOk || ctx.copyBackOk,
                 refcount := none, linked := [], skipped := [master], warned := true }) ∧
    (∀ (ctx : GroupCtx) (master r : String) (rs : List String) (lto : Option LinkType),
        ctx.outcome master = ROutcome.ok lto →
        (∀ q ∈ r :: rs, ctx.outcome q ≠ ROutcome.otherErr) →
        ∃ st' : OrchSt,
          processGroup ctx false false (master :: r :: rs) = some st' ∧
          st'.vaultHas = true ∧
          st'.masterRestored = false ∧
          st'.refcount = some ((r :: rs).length + 1) ∧
          (∀ p ∈ r :: rs, ctx.outcome p = ROutcome.reflinkUnsupported → p ∈ st'.skipped)) := by
  constructor
  · intro ctx master r rs hm
    have hmr : masterReplace ctx { initOrch with vaultHas := true } master =
        some ({ vaultHas := !(ctx.renameBackOk || ctx.copyBackOk),
                masterRestored := ctx.renameBackOk || ctx.copyBackOk,
                refcount := none, linked := [], skipped := [master], warned := true }, true) := by
      rw [masterReplace, hm]
      rfl
    rw [processGroup]
    simp only [Bool.false_and, if_false, if_neg (Bool.false_ne_true), hmr]
    exact fun h => by cases h
  · intro ctx master r rs lto hm hne
    have hst1 : ∃ st1 : OrchSt, masterReplace ctx { initOrch with vaultHas := true } master =
        some (st1, false) ∧ st1.vaultHas = true ∧ st1.masterRestored = false ∧
        st1.refcount = none ∧ st1.skipped = [] := by
      rcases lto with _ | lt
      · exact ⟨{ initOrch with vaultHas := true }, by rw [masterReplace, hm], rfl, rfl, rfl, rfl⟩
      · exact ⟨{ initOrch with vaultHas := true, linked := [master] },
          by rw [masterReplace, hm]; rfl, rfl, rfl, rfl, rfl⟩
    obtain ⟨st1, hmr, hv1, hmr1, hrc1, hsk1⟩ := hst1
    obtain ⟨st2, hf, hv2, hm2, hrc2, hsk2, hsk3⟩ := restFold_no_other_err ctx (r :: rs) hne st1
    refine ⟨{ st2 with refcount := some ((r :: rs).length + 1) }, ?_, ?_, ?_, rfl, ?_⟩
    · rw [processGroup]
      simp only [Bool.false_and, if_false, if_neg (Bool.false_ne_true), hmr, hf]
      exact fun h => by cases h
    · show st2.vaultHas = true
      rw [hv2, hv1]
    · show st2.masterRestored = false
      rw [hm2, hmr1]
    · intro p hp hout
      exact hsk3 p hp hout

/-- Witness for C1's amended claim: both halves at concrete groups — a
master failure rolls back and abandons, and a non-master failure leaves
refcount 2 recorded with the path skipped. -/
theorem dedupe_reflink_unsupported_amended_witness :
    processGroup demoCtxMasterFail false false ["m", "p"] =
      some { vaultHas := !(demoCtxMasterFail.renameBackOk || demoCtxMasterFail.copyBackOk),
             masterRestored := demoCtxMasterFail.renameBackOk || demoCtxMasterFail.copyBackOk,
             refcount := none, linked := [], skipped := ["m"], warned := true } ∧
    (∃ st' : OrchSt,
      processGroup demoCtxC1 false false ["m", "p"] = some st' ∧
      st'.vaultHas = true ∧
      st'.masterRestored = false ∧
      st'.refcount = some (["p"].length + 1) ∧
      (∀ p ∈ ["p"], demoCtxC1.outcome p = ROutcome.reflinkUnsupported → p ∈ st'.skipped)) :=
  ⟨dedupe_reflink_unsupported_amended.1 demoCtxMasterFail "m" "p" [] (by decide),
   dedupe_reflink_unsupported_amended.2 demoCtxC1 "m" "p" []
     (some LinkType.Reflink) (by decide) (by decide)⟩

/-- Folding any sequence of writes over an absent store leaves it absent
(the spec-modelled silent no-op of dry-run write calls). -/
theorem foldl_applyOp_none : ∀ ops : List StOp, ops.foldl applyOp none = none := by
  intro ops
  induction ops with
  | nil => rfl
  | cons op t ih => simpa [applyOp] using ih

/-- A dry restore sweep touches nothing: no `restore_file`, no state
change. -/
theorem dry_restore_no_change (db : RDb) (path : String) (inode : Nat) (rOk : Bool) :
    restore_pipeline_step db path inode rOk true = (db, false) := by
  rw [restore_pipeline_step]
  split
  · rfl
  · rfl

/-- Claim C2: a dry-run dedupe or restore against an absent state store
opens it without creating it, and ends with it still absent: the scan
pipeline's `upsert_file`/`set_cas_refcount` calls are silent no-ops on the
absent store, the dry dedupe orchestrator performs no vault ingest, no
link replacement and no refcount write, and the dry restore sweep mutates
nothing. -/
theorem dry_run_no_state_writes :
    open_readonly_if_exists none = none ∧
    (∀ hashed results,
        (scanPipelineOps hashed results).foldl applyOp (open_readonly_if_exists none) = none) ∧
    (∀ ctx paranoid paths, processGroup ctx paranoid true paths = some initOrch) ∧
    (∀ db path inode rOk, restore_pipeline_step db path inode rOk true = (db, false)) := by
  refine ⟨rfl, fun hashed results => foldl_applyOp_none _, ?_,
    fun db path inode rOk => dry_restore_no_change db path inode rOk⟩
  intro ctx paranoid paths
  rcases paths with _ | ⟨a, _ | ⟨b, t⟩⟩
  · rfl
  · rfl
  · rfl

/-- Claim C6: when the restore pipeline successfully restores a file whose
hash could be recovered and whose refcount r is positive, it unmarks the
inode, removes the path from the file index, and decrements the refcount;
exactly at zero the vault master is removed and the refcount entry
deleted, otherwise the decremented value is written back. -/
theorem restore_decrements
    (db : RDb) (path : String) (inode : Nat) (m : FileMeta) (r : Nat)
    (hmeta : db.fileIndex path = some m)
    (hneeds : db.vaulted inode = true ∨
      (db.vaulted inode = false ∧ db.vaultFiles m.hash = true))
    (hcas : db.cas m.hash = some r)
    (hr : 1 ≤ r) :
    (restore_pipeline_step db path inode true false).2 = true ∧
    (restore_pipeline_step db path inode true false).1.vaulted inode = false ∧
    (restore_pipeline_step db path inode true false).1.fileIndex path = none ∧
    (r = 1 → (restore_pipeline_step db path inode true false).1.vaultFiles m.hash = false ∧
        (restore_pipeline_step db path inode true false).1.cas m.hash = none) ∧
    (2 ≤ r → (restore_pipeline_step db path inode true false).1.cas m.hash = some (r - 1) ∧
        (restore_pipeline_step db path inode true false).1.vaultFiles m.hash =
          db.vaultFiles m.hash) := by
  have hpos : 0 < r := hr
  rcases hneeds with hv | ⟨hv, hvf⟩
  · by_cases hr1 : r - 1 = 0
    · have hres : restore_pipeline_step db path inode true false =
          ({ db with
              vaulted := fun i => if i = inode then false else db.vaulted i,
              fileIndex := fun p => if p = path then none else db.fileIndex p,
              vaultFiles := fun x => if x = m.hash then false else db.vaultFiles x,
              cas := fun x => if x = m.hash then none else db.cas x }, true) := by
        rw [restore_pipeline_step]
        simp only [hmeta, hv, Bool.true_or, Bool.not_true, Bool.false_eq_true, if_false,
          eq_self_iff_true, if_true, Option.map_some', hcas, Option.getD_some]
        rw [if_pos hpos, if_pos hr1]
      rw [hres]
      refine ⟨rfl, by simp, by simp, fun _ => ⟨by simp, by simp⟩, fun h2 => ?_⟩
      omega
    · have hres : restore_pipeline_step db path inode true false =
          ({ db with
              vaulted := fun i => if i = inode then false else db.vaulted i,
              fileIndex := fun p => if p = path then none else db.fileIndex p,
              cas := fun x => if x = m.hash then some (r - 1) else db.cas x }, true) := by
        rw [restore_pipeline_step]
        simp only [hmeta, hv, Bool.true_or, Bool.not_true, Bool.false_eq_true, if_false,
          eq_self_iff_true, if_true, Option.map_some', hcas, Option.getD_some]
        rw [if_pos hpos, if_neg hr1]
      rw [hres]
      refine ⟨rfl, by simp, by simp, fun h1 => absurd h1 (by omega), fun _ => ⟨by simp, rfl⟩⟩
  · by_cases hr1 : r - 1 = 0
    · have hres : restore_pipeline_step db path inode true false =
          ({ db with
              vaulted := fun i => if i = inode then false else db.vaulted i,
              fileIndex := fun p => if p = path then none else db.fileIndex p,
              vaultFiles := fun x => if x = m.hash then false else db.vaultFiles x,
              cas := fun x => if x = m.hash then none else db.cas x }, true) := by
        rw [restore_pipeline_step]
        simp only [hmeta, hv, Bool.false_or, hvf, Bool.not_true, Bool.false_eq_true, if_false,
          eq_self_iff_true, if_true, Option.map_some', hcas, Option.getD_some]
        rw [if_pos hpos, if_pos hr1]
      rw [hres]
      refine ⟨rfl, by simp, by simp, fun _ => ⟨by simp, by simp⟩, fun h2 => ?_⟩
      omega
    · have hres : restore_pipeline_step db path inode true false =
          ({ db with
              vaulted := fun i => if i = inode then false else db.vaulted i,
              fileIndex := fun p => if p = path then none else db.fileIndex p,
              cas := fun x => if x = m.hash then some (r - 1) else db.cas x }, true) := by
        rw [restore_pipeline_step]
        simp only [hmeta, hv, Bool.false_or, hvf, Bool.not_true, Bool.false_eq_true, if_false,
          eq_self_iff_true, if_true, Option.map_some', hcas, Option.getD_some]
        rw [if_pos hpos, if_neg hr1]
      rw [hres]
      refine ⟨rfl, by simp, by simp, fun h1 => absurd h1 (by omega), fun _ => ⟨by simp, rfl⟩⟩

/-- Witness for C6 at `demoRDb` (vaulted inode 7, hash 3, refcount 2). -/
theorem restore_decrements_witness :
    (restore_pipeline_step demoRDb "a" 7 true false).2 = true ∧
    (restore_pipeline_step demoRDb "a" 7 true false).1.vaulted 7 = false ∧
    (restore_pipeline_step demoRDb "a" 7 true false).1.fileIndex "a" = none ∧
    ((2 : Nat) = 1 →
        (restore_pipeline_step demoRDb "a" 7 true false).1.vaultFiles
          (FileMeta.mk 10 0 3).hash = false ∧
        (restore_pipeline_step demoRDb "a" 7 true false).1.cas
          (FileMeta.mk 10 0 3).hash = none) ∧
    (2 ≤ 2 →
        (restore_pipeline_step demoRDb "a" 7 true false).1.cas
          (FileMeta.mk 10 0 3).hash = some (2 - 1) ∧
        (restore_pipeline_step demoRDb "a" 7 true false).1.vaultFiles
          (FileMeta.mk 10 0 3).hash = demoRDb.vaultFiles (FileMeta.mk 10 0 3).hash) :=
  restore_decrements demoRDb "a" 7 (FileMeta.mk 10 0 3) 2
    (by decide) (Or.inl (by decide)) (by decide) (by decide)

/-- Claim C10: a file whose inode is vaulted but which has no file-index
entry is still restored and its inode unmarked, but no refcount is
decremented and no vault garbage collection happens: the cas table and the
vault masters are untouched. -/
theorem restore_no_index_no_gc
    (db : RDb) (path : String) (inode : Nat)
    (hvaulted : db.vaulted inode = true)
    (hmeta : db.fileIndex path = none) :
    (restore_pipeline_step db path inode true false).2 = true ∧
    (restore_pipeline_step db path inode true false).1.vaulted inode = false ∧
    (∀ h, (restore_pipeline_step db path inode true false).1.cas h = db.cas h) ∧
    (∀ h, (restore_pipeline_step db path inode true false).1.vaultFiles h = db.vaultFiles h) ∧
    (∀ p, p ≠ path → (restore_pipeline_step db path inode true false).1.fileIndex p =
      db.fileIndex p) := by
  have hres : restore_pipeline_step db path inode true false =
      ({ db with
          vaulted := fun i => if i = inode then false else db.vaulted i,
          fileIndex := fun p => if p = path then none else db.fileIndex p }, true) := by
    rw [restore_pipeline_step]
    simp only [hmeta, hvaulted, Bool.true_or, Bool.not_true, Bool.false_eq_true, if_false,
      eq_self_iff_true, if_true, Option.map_none']
  rw [hres]
  exact ⟨rfl, by simp, fun h => rfl, fun h => rfl, fun p hp => by simp [hp]⟩

/-- Witness for C10 at `demoRDbNoIndex`: the vault master for hash 3 and its
refcount entry are left behind. -/
theorem restore_no_index_no_gc_witness :
    (restore_pipeline_step demoRDbNoIndex "a" 7 true false).2 = true ∧
    (restore_pipeline_step demoRDbNoIndex "a" 7 true false).1.vaulted 7 = false ∧
    (∀ h, (restore_pipeline_step demoRDbNoIndex "a" 7 true false).1.cas h =
      demoRDbNoIndex.cas h) ∧
    (∀ h, (restore_pipeline_step demoRDbNoIndex "a" 7 true false).1.vaultFiles h =
      demoRDbNoIndex.vaultFiles h) ∧
    (∀ p, p ≠ "a" → (restore_pipeline_step demoRDbNoIndex "a" 7 true false).1.fileIndex p =
      demoRDbNoIndex.fileIndex p) :=
  restore_no_index_no_gc demoRDbNoIndex "a" 7 (by decide) (by decide)

end Imprint
